import Mathlib

/-!
A shallow embedding of the kernel's dynamic-memory subsystem: the alignment
utility from src/allocator.rs and the three allocation strategies from
src/allocator/bump.rs, src/allocator/linked_list.rs and
src/allocator/fixed_size_block.rs, together with proofs of the behavioural
properties stated for them.

Machine integers are modelled as natural numbers together with the explicit
bound 2 ^ 64 of the 64-bit x86_64 target; fallible operations (checked
arithmetic, assertion failures, layout errors) return an Option.  The
intrusive free lists, which the Rust code stores inside the free chunks
themselves, are modelled by the list of the (start, size) regions they
describe, in link order from the head of the list.
-/

/-- Number of values of the 64-bit `usize` type of the x86_64 target the
kernel is compiled for; every address and size is below this bound. -/
def USIZE : Nat := 2 ^ 64

/-- Largest value of the signed machine integer `isize`, used by the layout
validity checks of the standard library. -/
def ISIZE_MAX : Nat := 2 ^ 63 - 1

/-- Models the standard-library primitive `usize::is_power_of_two`: true
exactly when the argument equals `2 ^ k` for some `k`.  A `usize` value is
below `2 ^ 64`, so the exponent ranges over `0, ..., 63`. -/
def is_power_of_two (n : Nat) : Bool :=
  (List.range 64).any (fun k => n == 2 ^ k)

/-- Bitwise complement `!x` of a `usize` value: within 64 bits the
complement of `x` is `2 ^ 64 - 1 - x`. -/
def usize_not (x : Nat) : Nat := (USIZE - 1) - x

/-- Models `usize::checked_add`: the sum when it fits in 64 bits, otherwise
none. -/
def checked_add (a b : Nat) : Option Nat :=
  if a + b < USIZE then some (a + b) else none

/-- Translation of `align_up` from src/allocator.rs: fails when the
alignment is not a power of two, returns the address unchanged when it is
already aligned, and otherwise clears the low bits and adds the alignment
with a checked addition. -/
def align_up (addr align : Nat) : Option Nat :=
  if !(is_power_of_two align) then
    none
  else
    let mask := align - 1
    if addr &&& mask == 0 then
      some addr
    else
      checked_add (addr &&& usize_not mask) align

/-- Model of `core::alloc::Layout`: an allocation request of a size and an
alignment in bytes.  The Rust type guarantees that the alignment is a power
of two; the model carries the raw fields and the layout operations perform
the power-of-two checks exactly where the library performs them. -/
structure Layout where
  size : Nat
  align : Nat
deriving DecidableEq

/-- Models `Layout::from_size_align`: succeeds when the alignment is a power
of two and the size, rounded up to the alignment, stays within
`isize::MAX`. -/
def Layout.from_size_align (size align : Nat) : Option Layout :=
  if is_power_of_two align ∧ size ≤ ISIZE_MAX - (align - 1) then
    some { size := size, align := align }
  else
    none

/-- Models `Layout::align_to`: the same size with the alignment raised to at
least the requested one. -/
def Layout.align_to (l : Layout) (align : Nat) : Option Layout :=
  Layout.from_size_align l.size (max l.align align)

/-- Models `Layout::pad_to_align`: the size rounded up to the next multiple
of the alignment. -/
def Layout.pad_to_align (l : Layout) : Layout :=
  { size := l.size + (l.align - l.size % l.align) % l.align, align := l.align }

/-- State of the bump allocator from src/allocator/bump.rs. -/
structure BumpAllocator where
  heap_start : Nat
  heap_end : Nat
  next : Nat
  allocations : Nat
deriving DecidableEq

/-- Translation of `BumpAllocator::new`. -/
def BumpAllocator.new (heap_start heap_size : Nat) : BumpAllocator :=
  { heap_start := heap_start
    heap_end := heap_start + heap_size
    next := heap_start
    allocations := 0 }

/-- Translation of `GlobalAlloc::alloc` for the bump allocator: the returned
option is the produced pointer, none standing for the null failure
sentinel, paired with the successor state. -/
def BumpAllocator.alloc (bump : BumpAllocator) (layout : Layout) :
    Option Nat × BumpAllocator :=
  match align_up bump.next layout.align with
  | none => (none, bump)
  | some alloc_start =>
    match checked_add alloc_start layout.size with
    | none => (none, bump)
    | some alloc_end =>
      if bump.heap_end < alloc_end then
        (none, bump)
      else
        (some alloc_start,
          { bump with next := alloc_end, allocations := bump.allocations + 1 })

/-- Translation of `GlobalAlloc::dealloc` for the bump allocator.  The code
decrements `allocations` with the unchecked `usize` subtraction; the
underflow on a state with no outstanding allocation is modelled as none.
The pointer and layout arguments are ignored by the code. -/
def BumpAllocator.dealloc (bump : BumpAllocator) ( _ptr : Nat)
    ( _layout : Layout) : Option BumpAllocator :=
  if bump.allocations = 0 then
    none
  else
    let allocations := bump.allocations - 1
    if allocations = 0 then
      some { bump with allocations := allocations, next := bump.heap_start }
    else
      some { bump with allocations := allocations }

/-- A sequence of bump allocations, each of which is required to succeed;
returns the final state. -/
def allocMany : BumpAllocator → List Layout → Option BumpAllocator
  | b, [] => some b
  | b, l :: ls =>
    match BumpAllocator.alloc b l with
    | (some _, b') => allocMany b' ls
    | (none, _) => none

/-- A sequence of bump deallocations with the given pointer and layout
arguments, each of which is required not to underflow. -/
def deallocMany : BumpAllocator → List (Nat × Layout) → Option BumpAllocator
  | b, [] => some b
  | b, f :: fs => (BumpAllocator.dealloc b f.1 f.2).bind (fun b' => deallocMany b' fs)

/-- Size in bytes of the `ListNode` header of the linked-list allocator on
the x86_64 target: a `usize` field and a pointer-sized optional reference. -/
def ll_size_of_ListNode : Nat := 16

/-- Alignment in bytes of the `ListNode` header of the linked-list allocator
on the x86_64 target. -/
def ll_align_of_ListNode : Nat := 8

/-- A free region of the linked-list allocator, described by the node stored
at its start: the node's address and the stored size. -/
structure Region where
  start : Nat
  size : Nat
deriving DecidableEq

/-- Translation of `ListNode::end_addr`. -/
def Region.end_addr (r : Region) : Nat := r.start + r.size

/-- Translation of `alloc_from_region` from src/allocator/linked_list.rs:
the aligned allocation start inside the region when the layout fits and the
leftover tail is either empty or large enough for a new list node. -/
def alloc_from_region (region : Region) (layout : Layout) : Option Nat :=
  match align_up region.start layout.align with
  | none => none
  | some alloc_start =>
    match checked_add alloc_start layout.size with
    | none => none
    | some alloc_end =>
      if region.end_addr < alloc_end then
        none
      else
        if 0 < region.end_addr - alloc_end ∧
            region.end_addr - alloc_end < ll_size_of_ListNode then
          none
        else
          some alloc_start

/-- Abstraction of `LinkedListAllocator::find_region` over the free list
viewed as the list of its regions in link order: the first region the
layout fits into (first fit), the allocation start inside it, and the list
with that region unlinked. -/
def find_region : List Region → Layout → Option (Region × Nat × List Region)
  | [], _ => none
  | r :: rs, layout =>
    match alloc_from_region r layout with
    | some alloc_start => some (r, alloc_start, rs)
    | none => (find_region rs layout).map (fun x => (x.1, x.2.1, r :: x.2.2))

/-- Abstraction of `LinkedListAllocator::add_free_region`: the two asserts
(the address is aligned for a node, the size holds at least a node) become
a guard whose failure is modelled as none, and the new region is linked at
the head of the free list. -/
def add_free_region (regions : List Region) (addr size : Nat) :
    Option (List Region) :=
  if align_up addr ll_align_of_ListNode = some addr ∧
      ll_size_of_ListNode ≤ size then
    some ({ start := addr, size := size } :: regions)
  else
    none

/-- Translation of `size_align` from src/allocator/linked_list.rs: the
layout aligned to the node alignment, padded to its alignment, and enlarged
to at least the node size. -/
def size_align (layout : Layout) : Option Layout :=
  match layout.align_to ll_align_of_ListNode with
  | none => none
  | some l =>
    Layout.from_size_align (max l.pad_to_align.size ll_size_of_ListNode)
      l.pad_to_align.align

/-- Translation of `GlobalAlloc::alloc` for the linked-list allocator over
the region-list abstraction.  The outer option models a panic of the
`expect` on the overflow check or of an assert inside `add_free_region`;
the inner option is the returned pointer, none standing for the null
failure sentinel. -/
def ll_alloc (regions : List Region) (layout : Layout) :
    Option (Option Nat × List Region) :=
  match size_align layout with
  | none => some (none, regions)
  | some layout =>
    match find_region regions layout with
    | none => some (none, regions)
    | some (region, alloc_start, rest) =>
      match checked_add alloc_start layout.size with
      | none => none
      | some alloc_end =>
        if 0 < region.end_addr - alloc_end then
          (add_free_region rest alloc_end (region.end_addr - alloc_end)).map
            (fun rs => (some alloc_start, rs))
        else
          some (some alloc_start, rest)

/-- Translation of `GlobalAlloc::dealloc` for the linked-list allocator:
normalizes the layout and re-inserts the chunk; a panic of the `expect` on
the normalization or of an assert is modelled as none. -/
def ll_dealloc (regions : List Region) (ptr : Nat) (layout : Layout) :
    Option (List Region) :=
  match size_align layout with
  | none => none
  | some aligned => add_free_region regions ptr aligned.size

/-- States of the linked-list allocator reachable from initialization by
alloc and dealloc calls that complete without a panic. -/
inductive LLReachable : List Region → Prop
  | init (heap_start heap_size : Nat) (s : List Region) :
      add_free_region [] heap_start heap_size = some s → LLReachable s
  | alloc (s : List Region) (layout : Layout) (r : Option Nat)
      (s' : List Region) :
      LLReachable s → ll_alloc s layout = some (r, s') → LLReachable s'
  | dealloc (s : List Region) (ptr : Nat) (layout : Layout)
      (s' : List Region) :
      LLReachable s → ll_dealloc s ptr layout = some s' → LLReachable s'

/-- The block size classes of src/allocator/fixed_size_block.rs. -/
def BLOCK_SIZES : List Nat := [8, 16, 32, 64, 128, 256, 512, 1024, 2048]

/-- Models `Iterator::position`: the index of the first element satisfying
the predicate. -/
def position (p : Nat → Bool) : List Nat → Option Nat
  | [] => none
  | x :: xs => if p x then some 0 else (position p xs).map (· + 1)

/-- Translation of `list_index` from src/allocator/fixed_size_block.rs: the
index of the first block size at least `max(layout.size, layout.align)`. -/
def list_index (layout : Layout) : Option Nat :=
  let required_block_size := max layout.size layout.align
  position (fun size => decide (required_block_size ≤ size)) BLOCK_SIZES

/-- Size in bytes of the `ListNode` header of the fixed-size block allocator
on the x86_64 target: one pointer-sized optional reference. -/
def fsb_size_of_ListNode : Nat := 8

/-- Alignment in bytes of the `ListNode` header of the fixed-size block
allocator on the x86_64 target. -/
def fsb_align_of_ListNode : Nat := 8

/-- State of the fixed-size block allocator: one free list of block
addresses per size class, in link order from the head, and the state of the
external fallback heap, which is kept abstract as a type parameter. -/
structure FixedSizeBlockAllocator (H : Type) where
  list_heads : List (List Nat)
  fallback_allocator : H
deriving DecidableEq

/-- Translation of `FixedSizeBlockAllocator::fallback_alloc`: delegates to
the abstract `allocate_first_fit` of the external fallback heap, none
standing for the null pointer returned on its error. -/
def FixedSizeBlockAllocator.fallback_alloc {H : Type}
    (allocate_first_fit : H → Layout → Option Nat × H)
    (a : FixedSizeBlockAllocator H) (layout : Layout) :
    Option Nat × FixedSizeBlockAllocator H :=
  let res := allocate_first_fit a.fallback_allocator layout
  (res.1, { a with fallback_allocator := res.2 })

/-- Translation of `GlobalAlloc::alloc` for the fixed-size block allocator:
pop the head block of the class when its list is non-empty, otherwise
request one block of the class size (whose `Layout::from_size_align` always
succeeds, every class size being a power of two) from the fallback heap,
and bypass the classes entirely when the layout fits none of them. -/
def FixedSizeBlockAllocator.alloc {H : Type}
    (allocate_first_fit : H → Layout → Option Nat × H)
    (a : FixedSizeBlockAllocator H) (layout : Layout) :
    Option Nat × FixedSizeBlockAllocator H :=
  match list_index layout with
  | some index =>
    match a.list_heads.getD index [] with
    | node :: rest =>
      (some node, { a with list_heads := a.list_heads.set index rest })
    | [] =>
      let block_size := BLOCK_SIZES.getD index 0
      a.fallback_alloc allocate_first_fit { size := block_size, align := block_size }
  | none => a.fallback_alloc allocate_first_fit layout

/-- Translation of `GlobalAlloc::dealloc` for the fixed-size block
allocator: when the layout maps to a class, the two asserts become a guard
whose failure is modelled as none and the freed block is pushed at the head
of the class list; otherwise the pointer is wrapped by `NonNull::new` with
an `expect` that panics on the null pointer, modelled as none at address 0,
and forwarded to the abstract `deallocate` of the external fallback heap. -/
def FixedSizeBlockAllocator.dealloc {H : Type}
    (deallocate : H → Nat → Layout → H)
    (a : FixedSizeBlockAllocator H) (ptr : Nat) (layout : Layout) :
    Option (FixedSizeBlockAllocator H) :=
  match list_index layout with
  | some index =>
    if fsb_size_of_ListNode ≤ BLOCK_SIZES.getD index 0 ∧
        BLOCK_SIZES.getD index 0 % fsb_align_of_ListNode = 0 then
      some { a with
        list_heads := a.list_heads.set index (ptr :: a.list_heads.getD index []) }
    else
      none
  | none =>
    if ptr = 0 then
      none
    else
      some { a with fallback_allocator := deallocate a.fallback_allocator ptr layout }

/-- The power-of-two test agrees with the existence of an exponent below the
usize width. -/
lemma is_power_of_two_iff (n : Nat) :
    is_power_of_two n = true ↔ ∃ k, k < 64 ∧ n = 2 ^ k := by
  simp [is_power_of_two, List.any_eq_true, List.mem_range]

/-- Masking with the complement of a low-bit mask clears the value down to
the previous multiple of the corresponding power of two. -/
lemma and_sub_pow_eq (a k : Nat) (hk : k ≤ 64) (ha : a < USIZE) :
    a &&& (2 ^ 64 - 2 ^ k) = 2 ^ k * (a / 2 ^ k) := by
  have hshape : 2 ^ 64 - 2 ^ k = (2 ^ (64 - k) - 1) <<< k := by
    rw [Nat.shiftLeft_eq, Nat.sub_mul, Nat.one_mul, ← Nat.pow_add]
    congr 2
    omega
  have hdiv : 2 ^ k * (a / 2 ^ k) = (a >>> k) <<< k := by
    rw [Nat.shiftRight_eq_div_pow, Nat.shiftLeft_eq, Nat.mul_comm]
  rw [hshape, hdiv]
  apply Nat.eq_of_testBit_eq
  intro i
  rw [Nat.testBit_and, Nat.testBit_shiftLeft, Nat.testBit_shiftLeft,
    Nat.testBit_shiftRight, Nat.testBit_two_pow_sub_one]
  by_cases hik : k ≤ i
  · have hki : k + (i - k) = i := by omega
    rw [hki]
    by_cases hi64 : i < 64
    · have hsub : i - k < 64 - k := by omega
      simp [ge_iff_le, hik, hsub]
    · have hbit : a.testBit i = false :=
        Nat.testBit_lt_two_pow
          (lt_of_lt_of_le ha (Nat.pow_le_pow_right (by norm_num) (by omega)))
      simp [hbit]
  · simp [ge_iff_le, hik]

/-- Value of the complemented mask of a power of two. -/
lemma usize_not_mask (k : Nat) (hk : k ≤ 64) :
    usize_not (2 ^ k - 1) = 2 ^ 64 - 2 ^ k := by
  have h : 2 ^ k ≤ 2 ^ 64 := Nat.pow_le_pow_right (by norm_num) hk
  have h1 : 1 ≤ 2 ^ k := Nat.one_le_two_pow
  simp only [usize_not, USIZE]
  omega

/-- Closed form of the alignment routine at a power-of-two alignment and an
in-range address. -/
lemma align_up_pow2 (addr k : Nat) (hk : k < 64) (ha : addr < USIZE) :
    align_up addr (2 ^ k) =
      if addr % 2 ^ k = 0 then some addr
      else checked_add (addr - addr % 2 ^ k) (2 ^ k) := by
  have hp : is_power_of_two (2 ^ k) = true :=
    (is_power_of_two_iff _).2 ⟨k, hk, rfl⟩
  have hmask : addr &&& (2 ^ k - 1) = addr % 2 ^ k :=
    Nat.and_pow_two_sub_one_eq_mod addr k
  have hcomp : addr &&& usize_not (2 ^ k - 1) = addr - addr % 2 ^ k := by
    rw [usize_not_mask k (Nat.le_of_lt hk),
      and_sub_pow_eq addr k (Nat.le_of_lt hk) ha]
    have := Nat.div_add_mod addr (2 ^ k)
    omega
  simp only [align_up, hp, Bool.not_true, Bool.false_eq_true, if_false,
    hmask, hcomp, beq_iff_eq]

/-- A successful alignment at a power-of-two alignment produces a multiple
of that alignment; no range condition is needed. -/
lemma align_up_pow2_mod (a k r : Nat) (h : align_up a (2 ^ k) = some r) :
    r % 2 ^ k = 0 := by
  have hp : is_power_of_two (2 ^ k) = true := by
    by_contra hq
    simp only [align_up, Bool.not_eq_true] at h
    rw [Bool.not_eq_true] at hq
    simp [hq] at h
  have hk : k < 64 := by
    obtain ⟨j, hj, he⟩ := (is_power_of_two_iff _).1 hp
    have := Nat.pow_right_injective (le_refl 2) he
    omega
  have hmask : a &&& (2 ^ k - 1) = a % 2 ^ k := Nat.and_pow_two_sub_one_eq_mod a k
  simp only [align_up, hp, Bool.not_true, Bool.false_eq_true, if_false,
    hmask, beq_iff_eq] at h
  split at h
  · cases h
    assumption
  · simp only [checked_add] at h
    split at h
    · have heq := Option.some.inj h
      have hdvd : 2 ^ k ∣ 2 ^ 64 - 2 ^ k :=
        Nat.dvd_sub' (pow_dvd_pow 2 (Nat.le_of_lt hk)) dvd_rfl
      have hz : (2 ^ 64 - 2 ^ k) % 2 ^ k = 0 := Nat.mod_eq_zero_of_dvd hdvd
      have hmod : (a &&& usize_not (2 ^ k - 1)) % 2 ^ k = 0 := by
        rw [usize_not_mask k (Nat.le_of_lt hk),
          ← Nat.and_pow_two_sub_one_eq_mod (a &&& (2 ^ 64 - 2 ^ k)) k,
          Nat.and_assoc, Nat.and_pow_two_sub_one_eq_mod (2 ^ 64 - 2 ^ k) k,
          hz, Nat.and_zero]
      rw [← heq, Nat.add_mod, hmod, Nat.mod_self]
      simp
    · exact Option.noConfusion h

/-- The alignment routine with the node alignment 8 returns the address
itself exactly on 8-aligned addresses; no range condition is needed. -/
lemma align_up_8_self (addr : Nat) :
    align_up addr 8 = some addr ↔ addr % 8 = 0 := by
  constructor
  · intro h
    have h8 : (8 : Nat) = 2 ^ 3 := by norm_num
    rw [h8] at h
    exact align_up_pow2_mod addr 3 addr h
  · intro hm
    have hp : is_power_of_two 8 = true := by decide
    have hmask : addr &&& (8 - 1) = addr % 8 :=
      Nat.and_pow_two_sub_one_eq_mod addr 3
    have hmask' : addr &&& 7 = addr % 8 :=
      Nat.and_pow_two_sub_one_eq_mod addr 3
    simp [align_up, hp, hmask, hmask', hm]

/-- C1: for every address `a` and alignment `n` of the usize range,
`align_up a n` returns the smallest value of the address width that is
`>= a` and a multiple of `n`, and it returns none exactly when `n` is not a
power of two or every such multiple overflows the address width. -/
theorem align_up_correct (addr align : Nat) (ha : addr < USIZE)
    (hal : align < USIZE) :
    (∀ r, align_up addr align = some r →
        addr ≤ r ∧ r % align = 0 ∧ r < USIZE ∧
        ∀ m, addr ≤ m → m % align = 0 → r ≤ m) ∧
    (align_up addr align = none ↔
        (¬ ∃ k, align = 2 ^ k) ∨
        ∀ m, addr ≤ m → m % align = 0 → USIZE ≤ m) := by
  by_cases hpow : ∃ k, align = 2 ^ k
  · obtain ⟨k, rfl⟩ := hpow
    have hk : k < 64 := by
      have h2 : (2 : Nat) ^ k < 2 ^ 64 := hal
      exact (Nat.pow_lt_pow_iff_right (by norm_num)).1 h2
    have hnpos : 0 < 2 ^ k := Nat.two_pow_pos k
    rw [align_up_pow2 addr k hk ha]
    by_cases hm : addr % 2 ^ k = 0
    · rw [if_pos hm]
      constructor
      · intro r hr
        cases hr
        exact ⟨le_refl _, hm, ha, fun m hm1 _ => hm1⟩
      · constructor
        · intro h
          exact Option.noConfusion h
        · rintro (hleft | hright)
          · exact absurd ⟨k, rfl⟩ hleft
          · exact absurd (hright addr (le_refl _) hm) (by omega)
    · rw [if_neg hm]
      have hmlt : addr % 2 ^ k < 2 ^ k := Nat.mod_lt _ hnpos
      have hmle : addr % 2 ^ k ≤ addr := Nat.mod_le _ _
      have hdm : 2 ^ k * (addr / 2 ^ k) + addr % 2 ^ k = addr :=
        Nat.div_add_mod addr (2 ^ k)
      have hq_eq : addr - addr % 2 ^ k + 2 ^ k = 2 ^ k * (addr / 2 ^ k + 1) := by
        rw [Nat.mul_add, Nat.mul_one]
        omega
      have hq_ge : addr ≤ addr - addr % 2 ^ k + 2 ^ k := by omega
      have hq_mod : (addr - addr % 2 ^ k + 2 ^ k) % 2 ^ k = 0 := by
        rw [hq_eq]
        exact Nat.mul_mod_right _ _
      have hq_min : ∀ m, addr ≤ m → m % 2 ^ k = 0 →
          addr - addr % 2 ^ k + 2 ^ k ≤ m := by
        intro m hm1 hm2
        by_contra hlt
        push_neg at hlt
        have hmdvd : 2 ^ k * (m / 2 ^ k) = m :=
          Nat.mul_div_cancel' (Nat.dvd_of_mod_eq_zero hm2)
        rw [hq_eq] at hlt
        have hdivlt : m / 2 ^ k < addr / 2 ^ k + 1 := by
          rw [Nat.div_lt_iff_lt_mul hnpos, Nat.mul_comm]
          omega
        have hle : 2 ^ k * (m / 2 ^ k) ≤ 2 ^ k * (addr / 2 ^ k) :=
          Nat.mul_le_mul_left _ (by omega)
        omega
      simp only [checked_add]
      by_cases hof : addr - addr % 2 ^ k + 2 ^ k < USIZE
      · rw [if_pos hof]
        constructor
        · intro r hr
          cases hr
          exact ⟨hq_ge, hq_mod, hof, hq_min⟩
        · constructor
          · intro h
            exact Option.noConfusion h
          · rintro (hleft | hright)
            · exact absurd ⟨k, rfl⟩ hleft
            · exact absurd (hright _ hq_ge hq_mod) (by omega)
      · rw [if_neg hof]
        constructor
        · intro r hr
          exact Option.noConfusion hr
        · constructor
          · intro _
            right
            intro m hm1 hm2
            have := hq_min m hm1 hm2
            omega
          · intro _
            rfl
  · have hfalse : is_power_of_two align = false := by
      rw [Bool.eq_false_iff]
      intro htrue
      obtain ⟨j, _, hj⟩ := (is_power_of_two_iff _).1 htrue
      exact hpow ⟨j, hj⟩
    simp only [align_up, hfalse, Bool.not_false, if_true]
    constructor
    · intro r hr
      exact Option.noConfusion hr
    · constructor
      · intro _
        exact Or.inl hpow
      · intro _
        trivial

/-- Concrete instance of the alignment correctness theorem: rounding 0x1010
up to alignment 0x100 yields a value at or above the address, and at most
the multiple 0x1200. -/
theorem align_up_correct_witness :
    0x1010 < USIZE ∧ 0x100 < USIZE ∧
      (0x1010 ≤ 0x1100 ∧ 0x1100 % 0x100 = 0 ∧ 0x1100 < USIZE) ∧
      0x1100 ≤ 0x1200 := by
  refine ⟨by decide, by decide, ?_, ?_⟩
  · have h := ((align_up_correct 0x1010 0x100 (by decide) (by decide)).1
      0x1100 (by decide))
    exact ⟨h.1, h.2.1, h.2.2.1⟩
  · exact ((align_up_correct 0x1010 0x100 (by decide) (by decide)).1
      0x1100 (by decide)).2.2.2 0x1200 (by decide) (by decide)

/-- A successful bump allocation increments the allocation count by one and
leaves the heap bounds unchanged. -/
lemma bump_alloc_some_state (b : BumpAllocator) (l : Layout) (a : Nat)
    (b' : BumpAllocator) (h : BumpAllocator.alloc b l = (some a, b')) :
    b'.allocations = b.allocations + 1 ∧ b'.heap_start = b.heap_start ∧
      b'.heap_end = b.heap_end := by
  unfold BumpAllocator.alloc at h
  split at h
  · exact absurd (congrArg Prod.fst h) (by simp)
  · split at h
    · exact absurd (congrArg Prod.fst h) (by simp)
    · split at h
      · exact absurd (congrArg Prod.fst h) (by simp)
      · have hsnd := congrArg Prod.snd h
        simp only at hsnd
        rw [← hsnd]
        exact ⟨rfl, rfl, rfl⟩

/-- A successful allocation sequence raises the allocation count by its
length and leaves the heap bounds unchanged. -/
lemma allocMany_state : ∀ (ls : List Layout) (b b' : BumpAllocator),
    allocMany b ls = some b' →
    b'.allocations = b.allocations + ls.length ∧
      b'.heap_start = b.heap_start ∧ b'.heap_end = b.heap_end
  | [], b, b', h => by
    rw [allocMany] at h
    cases h
    simp
  | l :: ls, b, b', h => by
    rw [allocMany] at h
    rcases halloc : BumpAllocator.alloc b l with ⟨r, b1⟩
    rw [halloc] at h
    rcases r with _ | a
    · simp at h
    · change allocMany b1 ls = some b' at h
      have ih := allocMany_state ls b1 b' h
      have hs := bump_alloc_some_state b l a b1 halloc
      refine ⟨?_, ?_, ?_⟩
      · rw [ih.1, hs.1]
        simp
        omega
      · rw [ih.2.1, hs.2.1]
      · rw [ih.2.2, hs.2.2]

/-- Freeing the last outstanding allocation resets the cursor to the heap
start. -/
lemma bump_dealloc_last (b : BumpAllocator) (p : Nat) (l : Layout)
    (h : b.allocations = 1) :
    BumpAllocator.dealloc b p l =
      some { b with allocations := 0, next := b.heap_start } := by
  simp [BumpAllocator.dealloc, h]

/-- Freeing while more than one allocation is outstanding only decrements
the count. -/
lemma bump_dealloc_step (b : BumpAllocator) (p : Nat) (l : Layout)
    (h : 1 < b.allocations) :
    BumpAllocator.dealloc b p l =
      some { b with allocations := b.allocations - 1 } := by
  have h0 : ¬ b.allocations = 0 := by omega
  have h1 : ¬ b.allocations - 1 = 0 := by omega
  simp [BumpAllocator.dealloc, h0, h1]

/-- Draining exactly as many frees as there are outstanding allocations
ends with a zero count and the cursor back at the heap start. -/
lemma deallocMany_drain : ∀ (fs : List (Nat × Layout)) (b : BumpAllocator),
    b.allocations = fs.length → fs ≠ [] →
    deallocMany b fs =
      some { heap_start := b.heap_start, heap_end := b.heap_end,
             next := b.heap_start, allocations := 0 }
  | [], _, _, hne => absurd rfl hne
  | [f], b, hlen, _ => by
    have h1 : b.allocations = 1 := by simpa using hlen
    rw [deallocMany, bump_dealloc_last b f.1 f.2 h1]
    rfl
  | f :: g :: fs, b, hlen, _ => by
    have h1 : 1 < b.allocations := by
      simp at hlen
      omega
    rw [deallocMany, bump_dealloc_step b f.1 f.2 h1]
    have h2 : ({ b with allocations := b.allocations - 1 } :
        BumpAllocator).allocations = (g :: fs).length := by
      simp at hlen ⊢
      omega
    rw [Option.some_bind]
    rw [deallocMany_drain (g :: fs) _ h2 (by simp)]
/-- C4: whenever aligning the cursor fails, or computing the allocation end
overflows, or the allocation end would exceed the heap end, the bump
allocator returns the null failure sentinel and its state is unchanged. -/
theorem bump_alloc_fail_no_mutation (b : BumpAllocator) (layout : Layout)
    (h : align_up b.next layout.align = none ∨
      (∃ s, align_up b.next layout.align = some s ∧
        checked_add s layout.size = none) ∨
      (∃ s e, align_up b.next layout.align = some s ∧
        checked_add s layout.size = some e ∧ b.heap_end < e)) :
    BumpAllocator.alloc b layout = (none, b) := by
  rcases h with h1 | ⟨s, h1, h2⟩ | ⟨s, e, h1, h2, h3⟩
  · simp [BumpAllocator.alloc, h1]
  · simp [BumpAllocator.alloc, h1, h2]
  · simp [BumpAllocator.alloc, h1, h2, h3]

/-- Concrete instance of the failure theorem: an allocation with the
non-power-of-two alignment 3 fails and leaves the state untouched. -/
theorem bump_alloc_fail_no_mutation_witness :
    BumpAllocator.alloc
        { heap_start := 0, heap_end := 100, next := 0, allocations := 0 }
        { size := 4, align := 3 } =
      (none, { heap_start := 0, heap_end := 100, next := 0, allocations := 0 }) :=
  bump_alloc_fail_no_mutation _ _ (Or.inl (by decide))

/-- C5: starting from a freshly initialized bump allocator, any sequence of
successful allocations followed by equally many frees, with arbitrary
pointer and layout arguments in arbitrary order, brings the cursor back to
the heap start with a zero outstanding count. -/
theorem bump_alloc_free_resets_next (hs sz : Nat) (ls : List Layout)
    (fs : List (Nat × Layout)) (b1 : BumpAllocator)
    (halloc : allocMany (BumpAllocator.new hs sz) ls = some b1)
    (hlen : fs.length = ls.length) :
    ∃ b2, deallocMany b1 fs = some b2 ∧ b2.next = hs ∧ b2.allocations = 0 := by
  have hst := allocMany_state ls (BumpAllocator.new hs sz) b1 halloc
  rcases fs with _ | ⟨f, fs'⟩
  · have hls : ls = [] := List.eq_nil_of_length_eq_zero (by simpa using hlen.symm)
    subst hls
    rw [allocMany] at halloc
    cases halloc
    exact ⟨_, rfl, rfl, rfl⟩
  · have hcnt : b1.allocations = (f :: fs').length := by
      have h0 : b1.allocations = ls.length := by
        simpa [BumpAllocator.new] using hst.1
      rw [h0, ← hlen]
    rw [deallocMany_drain (f :: fs') b1 hcnt (by simp)]
    refine ⟨_, rfl, ?_, rfl⟩
    simpa [BumpAllocator.new] using hst.2.1

/-- Concrete instance: one successful allocation followed by one free, on a
fresh 64-byte heap at 0, returns the cursor to the start. -/
theorem bump_alloc_free_resets_next_witness :
    ∃ b2, deallocMany
        { heap_start := 0, heap_end := 64, next := 8, allocations := 1 }
        [(0, { size := 8, align := 8 })] =
      some b2 ∧ b2.next = 0 ∧ b2.allocations = 0 :=
  bump_alloc_free_resets_next 0 64 [{ size := 8, align := 8 }]
    [(0, { size := 8, align := 8 })]
    { heap_start := 0, heap_end := 64, next := 8, allocations := 1 }
    (by decide) (by decide)

/-- C10: the bump deallocation decrements the outstanding count with the
unchecked usize subtraction, so it underflows exactly on the states with no
outstanding allocation; on any other state it is well defined. -/
theorem bump_dealloc_underflow (b : BumpAllocator) (ptr : Nat)
    (layout : Layout) :
    BumpAllocator.dealloc b ptr layout = none ↔ b.allocations = 0 := by
  simp only [BumpAllocator.dealloc]
  split_ifs <;> simp_all

/-- C2 counterexample: for the free region covering [0, 24) and the
normalized layout of size 16 and alignment 8 the leftover tail has 8 bytes,
non-zero and smaller than the 16-byte list node, and the code rejects the
region: the in-region allocation fails, and on a heap whose free list holds
exactly that region the allocator returns the null sentinel and keeps the
region in the list, instead of accepting the region as a larger-than-
requested allocation. -/
theorem ll_tail_too_small_counterexample :
    alloc_from_region { start := 0, size := 24 } { size := 16, align := 8 } =
        none ∧
      ll_alloc [{ start := 0, size := 24 }] { size := 16, align := 8 } =
        some (none, [{ start := 0, size := 24 }]) := by
  constructor <;> decide

/-- C2 (amended): when a candidate free region can hold the aligned
allocation but the leftover tail after the allocation is non-zero and
smaller than the list node, the region is rejected as unusable for that
layout, so the search moves past it. -/
theorem ll_tail_too_small_rejected (region : Region) (layout : Layout)
    (alloc_start alloc_end : Nat)
    (h1 : align_up region.start layout.align = some alloc_start)
    (h2 : checked_add alloc_start layout.size = some alloc_end)
    (h3 : alloc_end ≤ region.end_addr)
    (h4 : 0 < region.end_addr - alloc_end)
    (h5 : region.end_addr - alloc_end < ll_size_of_ListNode) :
    alloc_from_region region layout = none := by
  simp only [alloc_from_region, h1, h2]
  rw [if_neg (by omega), if_pos ⟨h4, h5⟩]

/-- Concrete instance of the rejection theorem: layout of size 12 and
alignment 4 inside the region [0, 24) leaves a 12-byte tail, smaller than a
node, so the region is rejected. -/
theorem ll_tail_too_small_rejected_witness :
    alloc_from_region { start := 0, size := 24 } { size := 12, align := 4 } =
      none :=
  ll_tail_too_small_rejected { start := 0, size := 24 }
    { size := 12, align := 4 } 0 12 (by decide) (by decide) (by decide)
    (by decide) (by decide)

/-- Position search characterization: finding index `i` means the predicate
holds there and fails strictly before. -/
lemma position_eq_some (p : Nat → Bool) :
    ∀ (l : List Nat) (i : Nat),
      position p l = some i ↔
        i < l.length ∧ p (l.getD i 0) = true ∧
          ∀ j, j < i → p (l.getD j 0) = false
  | [], i => by simp [position]
  | x :: xs, i => by
    rw [position]
    by_cases hx : p x
    · rw [if_pos hx]
      cases i with
      | zero => simp [hx]
      | succ n =>
        constructor
        · intro h
          exact Option.noConfusion h (fun h0 => Nat.noConfusion h0)
        · rintro ⟨-, -, hall⟩
          exact absurd hx (by simpa using hall 0 (Nat.succ_pos n))
    · rw [if_neg hx]
      cases i with
      | zero =>
        rw [Option.map_eq_some']
        constructor
        · rintro ⟨a, -, hEq⟩
          exact absurd hEq (by omega)
        · rintro ⟨-, hp, -⟩
          exact absurd (by simpa using hp) (by simpa using hx)
      | succ n =>
        rw [Option.map_eq_some']
        constructor
        · rintro ⟨a, ha, hEq⟩
          have han : a = n := by omega
          rw [han] at ha
          have ih := (position_eq_some p xs n).1 ha
          refine ⟨by simpa using Nat.succ_lt_succ ih.1, by simpa using ih.2.1, ?_⟩
          intro j hj
          cases j with
          | zero => simpa using hx
          | succ m => simpa using ih.2.2 m (by omega)
        · rintro ⟨hlen, hp, hall⟩
          refine ⟨n, ?_, rfl⟩
          apply (position_eq_some p xs n).2
          refine ⟨by simpa using hlen, by simpa using hp, ?_⟩
          intro m hm
          simpa using hall (m + 1) (by omega)

/-- Position search characterization: no index is found exactly when the
predicate fails on every element. -/
lemma position_eq_none (p : Nat → Bool) :
    ∀ l : List Nat, position p l = none ↔ ∀ x ∈ l, p x = false
  | [] => by simp [position]
  | x :: xs => by
    rw [position]
    by_cases hx : p x
    · simp [hx]
    · simp [hx, position_eq_none p xs]

/-- C6: the class search returns the index of the smallest block size at
least `max(size, align)` of the layout, and none exactly when that bound
exceeds the largest class 2048. -/
theorem list_index_smallest_class (layout : Layout) :
    (∀ i, list_index layout = some i →
      i < BLOCK_SIZES.length ∧
      max layout.size layout.align ≤ BLOCK_SIZES.getD i 0 ∧
      ∀ j, j < BLOCK_SIZES.length →
        max layout.size layout.align ≤ BLOCK_SIZES.getD j 0 →
        BLOCK_SIZES.getD i 0 ≤ BLOCK_SIZES.getD j 0) ∧
    (list_index layout = none ↔ 2048 < max layout.size layout.align) := by
  constructor
  · intro i hi
    simp only [list_index] at hi
    have h := (position_eq_some _ BLOCK_SIZES i).1 hi
    refine ⟨h.1, by simpa using h.2.1, ?_⟩
    intro j hj hjreq
    by_cases hij : i ≤ j
    · have hsorted : ∀ a < 9, ∀ b < 9, a ≤ b →
          BLOCK_SIZES.getD a 0 ≤ BLOCK_SIZES.getD b 0 := by decide
      exact hsorted i (by simpa [BLOCK_SIZES] using h.1) j
        (by simpa [BLOCK_SIZES] using hj) hij
    · push_neg at hij
      have hfail := of_decide_eq_false (h.2.2 j hij)
      omega
  · simp only [list_index]
    rw [position_eq_none]
    constructor
    · intro hall
      have h2048 := of_decide_eq_false (hall 2048 (by decide))
      omega
    · intro hgt x hx
      have hle : x ≤ 2048 := by
        have hmax : ∀ y ∈ BLOCK_SIZES, y ≤ 2048 := by decide
        exact hmax x hx
      exact decide_eq_false (by omega)

/-- Concrete instance: the layout of size 100 and alignment 8 maps to class
index 4 of size 128, the smallest class at least 100, in particular no
larger than the last class. -/
theorem list_index_smallest_class_witness :
    4 < BLOCK_SIZES.length ∧
      max (100 : Nat) 8 ≤ BLOCK_SIZES.getD 4 0 ∧
      BLOCK_SIZES.getD 4 0 ≤ BLOCK_SIZES.getD 8 0 := by
  have h := (list_index_smallest_class { size := 100, align := 8 }).1 4
    (by decide)
  exact ⟨h.1, h.2.1, h.2.2 8 (by decide) (by decide)⟩

/-- C7: the fixed-size block allocation pops the head node of the class
list when it is non-empty (LIFO reuse, no search), requests one block of
exactly the class size from the fallback heap when the list is empty, and
forwards the original layout to the fallback heap when no class fits. -/
theorem fsba_alloc_dispatch {H : Type}
    (allocate_first_fit : H → Layout → Option Nat × H)
    (a : FixedSizeBlockAllocator H) (layout : Layout) :
    (∀ i node rest, list_index layout = some i →
        a.list_heads.getD i [] = node :: rest →
        FixedSizeBlockAllocator.alloc allocate_first_fit a layout =
          (some node, { a with list_heads := a.list_heads.set i rest })) ∧
    (∀ i, list_index layout = some i → a.list_heads.getD i [] = [] →
        FixedSizeBlockAllocator.alloc allocate_first_fit a layout =
          FixedSizeBlockAllocator.fallback_alloc allocate_first_fit a
            { size := BLOCK_SIZES.getD i 0, align := BLOCK_SIZES.getD i 0 }) ∧
    (list_index layout = none →
        FixedSizeBlockAllocator.alloc allocate_first_fit a layout =
          FixedSizeBlockAllocator.fallback_alloc allocate_first_fit a layout) := by
  refine ⟨?_, ?_, ?_⟩
  · intro i node rest hi hl
    simp only [FixedSizeBlockAllocator.alloc, hi]
    rw [hl]
  · intro i hi hl
    simp only [FixedSizeBlockAllocator.alloc, hi]
    rw [hl]
  · intro hn
    simp only [FixedSizeBlockAllocator.alloc, hn]

/-- Concrete instance: with address 100 free in class 0, an 8-byte request
pops exactly that head node. -/
theorem fsba_alloc_dispatch_witness :
    FixedSizeBlockAllocator.alloc
        (fun (u : Unit) (_ : Layout) => ((none : Option Nat), u))
        { list_heads := [[100], [], [], [], [], [], [], [], []],
          fallback_allocator := () }
        { size := 8, align := 8 } =
      (some 100,
        { list_heads := [[], [], [], [], [], [], [], [], []],
          fallback_allocator := () }) := by
  have h := (fsba_alloc_dispatch
      (fun (u : Unit) (_ : Layout) => ((none : Option Nat), u))
      { list_heads := [[100], [], [], [], [], [], [], [], []],
        fallback_allocator := () }
      { size := 8, align := 8 }).1 0 100 [] (by decide) rfl
  exact h.trans rfl

/-- A found class index is an index into the class table. -/
lemma list_index_lt (layout : Layout) (i : Nat)
    (h : list_index layout = some i) : i < 9 := by
  simp only [list_index] at h
  have hlen := ((position_eq_some _ BLOCK_SIZES i).1 h).1
  simpa [BLOCK_SIZES] using hlen

/-- C8: for every class index the search can return, the two asserted
conditions hold (the class size holds a node header and is a multiple of
the node alignment), so the assertion branches are unreachable: the freed
block is pushed at the head of that class's list; a layout mapping to no
class is forwarded with its non-null pointer to the fallback heap, while
the null pointer panics there. -/
theorem fsba_dealloc_asserts {H : Type} (deallocate : H → Nat → Layout → H)
    (a : FixedSizeBlockAllocator H) (ptr : Nat) (layout : Layout) :
    (∀ i, list_index layout = some i →
        (fsb_size_of_ListNode ≤ BLOCK_SIZES.getD i 0 ∧
          BLOCK_SIZES.getD i 0 % fsb_align_of_ListNode = 0) ∧
        FixedSizeBlockAllocator.dealloc deallocate a ptr layout =
          some { a with
            list_heads := a.list_heads.set i (ptr :: a.list_heads.getD i []) }) ∧
    (list_index layout = none → ptr ≠ 0 →
        FixedSizeBlockAllocator.dealloc deallocate a ptr layout =
          some { a with
            fallback_allocator := deallocate a.fallback_allocator ptr layout }) ∧
    (list_index layout = none → ptr = 0 →
        FixedSizeBlockAllocator.dealloc deallocate a ptr layout = none) := by
  refine ⟨?_, ?_, ?_⟩
  · intro i hi
    have hlt : i < 9 := list_index_lt layout i hi
    have hassert : fsb_size_of_ListNode ≤ BLOCK_SIZES.getD i 0 ∧
        BLOCK_SIZES.getD i 0 % fsb_align_of_ListNode = 0 := by
      have hall : ∀ j < 9, fsb_size_of_ListNode ≤ BLOCK_SIZES.getD j 0 ∧
          BLOCK_SIZES.getD j 0 % fsb_align_of_ListNode = 0 := by decide
      exact hall i hlt
    refine ⟨hassert, ?_⟩
    simp only [FixedSizeBlockAllocator.dealloc, hi]
    rw [if_pos hassert]
  · intro hn hptr
    simp only [FixedSizeBlockAllocator.dealloc, hn]
    rw [if_neg hptr]
  · intro hn hptr
    simp only [FixedSizeBlockAllocator.dealloc, hn]
    rw [if_pos hptr]

/-- Concrete instance: freeing address 200 under the 1-byte layout maps to
class 0 of size 8, the asserts hold, and the node is pushed at the head;
freeing the same non-null address under the classless 3000-byte layout is
forwarded to the fallback heap. -/
theorem fsba_dealloc_asserts_witness :
    (fsb_size_of_ListNode ≤ BLOCK_SIZES.getD 0 0 ∧
      BLOCK_SIZES.getD 0 0 % fsb_align_of_ListNode = 0) ∧
    FixedSizeBlockAllocator.dealloc
        (fun (u : Unit) (_ : Nat) (_ : Layout) => u)
        { list_heads := [[], [], [], [], [], [], [], [], []],
          fallback_allocator := () } 200 { size := 1, align := 1 } =
      some { list_heads := [[200], [], [], [], [], [], [], [], []],
             fallback_allocator := () } ∧
    FixedSizeBlockAllocator.dealloc
        (fun (u : Unit) (_ : Nat) (_ : Layout) => u)
        { list_heads := [[], [], [], [], [], [], [], [], []],
          fallback_allocator := () } 200 { size := 3000, align := 1 } =
      some { list_heads := [[], [], [], [], [], [], [], [], []],
             fallback_allocator := () } := by
  have h := (fsba_dealloc_asserts (fun (u : Unit) (_ : Nat) (_ : Layout) => u)
      { list_heads := [[], [], [], [], [], [], [], [], []],
        fallback_allocator := () } 200 { size := 1, align := 1 }).1 0 (by decide)
  have h2 := (fsba_dealloc_asserts (fun (u : Unit) (_ : Nat) (_ : Layout) => u)
      { list_heads := [[], [], [], [], [], [], [], [], []],
        fallback_allocator := () } 200 { size := 3000, align := 1 }).2.1
    (by decide) (by decide)
  exact ⟨h.1, h.2.trans rfl, h2.trans rfl⟩

/-- A successful region insertion prepends exactly the described region and
certifies its alignment and minimal size. -/
lemma add_free_region_eq (rs : List Region) (addr sz : Nat)
    (rs' : List Region) (h : add_free_region rs addr sz = some rs') :
    rs' = { start := addr, size := sz } :: rs ∧
      addr % ll_align_of_ListNode = 0 ∧ ll_size_of_ListNode ≤ sz := by
  rw [add_free_region] at h
  split at h
  · rename_i hcond
    cases h
    exact ⟨rfl, (align_up_8_self addr).1 hcond.1, hcond.2⟩
  · exact Option.noConfusion h

/-- Every region left in the list by a successful first-fit search was
already in the searched list. -/
lemma find_region_rest_mem : ∀ (rs : List Region) (layout : Layout)
    (r : Region) (s : Nat) (rest : List Region),
    find_region rs layout = some (r, s, rest) → ∀ x ∈ rest, x ∈ rs
  | [], _, _, _, _, h => by simp [find_region] at h
  | r0 :: rs, layout, r, s, rest, h => by
    rw [find_region] at h
    rcases halloc : alloc_from_region r0 layout with _ | a <;> rw [halloc] at h
    · rw [Option.map_eq_some'] at h
      obtain ⟨⟨r1, s1, rest1⟩, hfind, hEq⟩ := h
      have hrest : rest = r0 :: rest1 :=
        (congrArg (fun y => y.2.2) hEq).symm
      intro x hx
      rw [hrest] at hx
      rcases List.mem_cons.1 hx with hx0 | hx1
      · exact hx0 ▸ List.mem_cons_self r0 rs
      · exact List.mem_cons_of_mem r0
          (find_region_rest_mem rs layout r1 s1 rest1 hfind x hx1)
    · injection h with h1
      have hrest : rest = rs := (congrArg (fun y => y.2.2) h1).symm
      intro x hx
      rw [hrest] at hx
      exact List.mem_cons_of_mem r0 hx

/-- The region returned by a successful first-fit search admits the
allocation the search claims. -/
lemma find_region_chosen : ∀ (rs : List Region) (layout : Layout)
    (r : Region) (s : Nat) (rest : List Region),
    find_region rs layout = some (r, s, rest) →
    alloc_from_region r layout = some s
  | [], _, _, _, _, h => by simp [find_region] at h
  | r0 :: rs, layout, r, s, rest, h => by
    rw [find_region] at h
    rcases halloc : alloc_from_region r0 layout with _ | a <;> rw [halloc] at h
    · rw [Option.map_eq_some'] at h
      obtain ⟨⟨r1, s1, rest1⟩, hfind, hEq⟩ := h
      have hr : r1 = r := congrArg (fun y => y.1) hEq
      have hs : s1 = s := congrArg (fun y => y.2.1) hEq
      rw [← hr, ← hs]
      exact find_region_chosen rs layout r1 s1 rest1 hfind
    · injection h with h1
      have hr : r0 = r := congrArg (fun y => y.1) h1
      have hs : a = s := congrArg (fun y => y.2.1) h1
      rw [← hr, ← hs]
      exact halloc

/-- C3: in every linked-list allocator state reachable from initialization
by panic-free allocate and deallocate calls, every free-list node has a
start aligned to the node alignment and a size of at least the node size,
and every region insertion links its new node at the head of the list. -/
theorem ll_free_list_invariant :
    (∀ s, LLReachable s →
      ∀ r ∈ s, r.start % ll_align_of_ListNode = 0 ∧
        ll_size_of_ListNode ≤ r.size) ∧
    (∀ rs addr sz rs', add_free_region rs addr sz = some rs' →
      rs' = { start := addr, size := sz } :: rs) := by
  constructor
  · intro s hs
    induction hs with
    | init hs0 hsz s h =>
      obtain ⟨hEq, hal, hsz'⟩ := add_free_region_eq [] hs0 hsz s h
      subst hEq
      intro r hr
      rcases List.mem_cons.1 hr with rfl | hr0
      · exact ⟨hal, hsz'⟩
      · simp at hr0
    | alloc s layout res s' hreach halloc ih =>
      rw [ll_alloc] at halloc
      split at halloc
      · simp only [Option.some.injEq, Prod.mk.injEq] at halloc
        obtain ⟨-, h2⟩ := halloc
        subst h2
        exact ih
      · rename_i l2 hsa
        split at halloc
        · simp only [Option.some.injEq, Prod.mk.injEq] at halloc
          obtain ⟨-, h2⟩ := halloc
          subst h2
          exact ih
        · rename_i region astart rest hfr
          split at halloc
          · exact Option.noConfusion halloc
          · rename_i aend hca
            split at halloc
            · rw [Option.map_eq_some'] at halloc
              obtain ⟨rs1, hadd1, hEq⟩ := halloc
              have hs' : s' = rs1 := (congrArg (fun y => y.2) hEq).symm
              obtain ⟨hEq1, hal, hsz'⟩ := add_free_region_eq rest aend _ rs1 hadd1
              intro r hr
              rw [hs', hEq1] at hr
              rcases List.mem_cons.1 hr with rfl | hr0
              · exact ⟨hal, hsz'⟩
              · exact ih r (find_region_rest_mem s l2 region astart rest hfr r hr0)
            · simp only [Option.some.injEq, Prod.mk.injEq] at halloc
              obtain ⟨-, h2⟩ := halloc
              intro r hr
              rw [← h2] at hr
              exact ih r (find_region_rest_mem s l2 region astart rest hfr r hr)
    | dealloc s ptr layout s' hreach hde ih =>
      rw [ll_dealloc] at hde
      split at hde
      · exact Option.noConfusion hde
      · rename_i aligned hsa
        obtain ⟨hEq, hal, hsz'⟩ := add_free_region_eq s ptr aligned.size s' hde
        subst hEq
        intro r hr
        rcases List.mem_cons.1 hr with rfl | hr0
        · exact ⟨hal, hsz'⟩
        · exact ih r hr0
  · intro rs addr sz rs' h
    exact (add_free_region_eq rs addr sz rs' h).1

/-- Concrete instance: the state reached by initializing a 32-byte heap at
address 0 consists of one aligned, large-enough free node. -/
theorem ll_free_list_invariant_witness :
    (Region.mk 0 32).start % ll_align_of_ListNode = 0 ∧
      ll_size_of_ListNode ≤ (Region.mk 0 32).size :=
  ll_free_list_invariant.1 [Region.mk 0 32]
    (LLReachable.init 0 32 [Region.mk 0 32] (by decide))
    (Region.mk 0 32) (List.mem_singleton.2 rfl)

/-- Padding a layout to its alignment makes the size a multiple of the
alignment. -/
lemma pad_to_align_mod (l : Layout) (hpos : 0 < l.align) :
    l.pad_to_align.size % l.align = 0 := by
  show (l.size + (l.align - l.size % l.align) % l.align) % l.align = 0
  by_cases h0 : l.size % l.align = 0
  · simp [h0]
  · have hr : l.size % l.align < l.align := Nat.mod_lt _ hpos
    have hmod : (l.align - l.size % l.align) % l.align =
        l.align - l.size % l.align := Nat.mod_eq_of_lt (by omega)
    rw [hmod]
    have hq : l.size + (l.align - l.size % l.align) =
        l.align * (l.size / l.align) + l.align := by
      have := Nat.div_add_mod l.size l.align
      omega
    rw [hq, ← Nat.mul_succ]
    exact Nat.mul_mod_right _ _

/-- The layout normalization of the linked-list allocator yields a
power-of-two alignment of at least the node alignment and a size that is a
multiple of the node alignment and at least the node size. -/
lemma size_align_spec (layout layout' : Layout)
    (h : size_align layout = some layout') :
    (∃ k, 3 ≤ k ∧ k < 64 ∧ layout'.align = 2 ^ k) ∧
      layout'.size % 8 = 0 ∧ ll_size_of_ListNode ≤ layout'.size := by
  rw [size_align] at h
  split at h
  · exact Option.noConfusion h
  · rename_i l1 hat
    rw [Layout.align_to, Layout.from_size_align] at hat
    split at hat
    · rename_i hc1
      injection hat with hat1
      have hl1 : l1 =
          { size := layout.size, align := max layout.align ll_align_of_ListNode } :=
        hat1.symm
      obtain ⟨j, hj64, hjeq⟩ := (is_power_of_two_iff _).1 hc1.1
      have hj3 : 3 ≤ j := by
        have h8 : (2 : Nat) ^ 3 ≤ max layout.align ll_align_of_ListNode :=
          Nat.le_max_right _ _
        rw [hjeq] at h8
        exact (Nat.pow_le_pow_iff_right (by norm_num)).1 h8
      rw [Layout.from_size_align] at h
      split at h
      · injection h with h2
        have halign : layout'.align = 2 ^ j := by
          rw [← h2]
          show l1.pad_to_align.align = 2 ^ j
          rw [hl1]
          exact hjeq
        have hpos : 0 < l1.align := by
          rw [hl1]
          show 0 < max layout.align ll_align_of_ListNode
          exact lt_of_lt_of_le (by decide) (Nat.le_max_right _ _)
        have hpad : l1.pad_to_align.size % l1.align = 0 :=
          pad_to_align_mod l1 hpos
        have hdvd8 : (8 : Nat) ∣ l1.align := by
          rw [hl1]
          show (8 : Nat) ∣ max layout.align ll_align_of_ListNode
          rw [hjeq]
          exact (pow_dvd_pow 2 hj3 : (2 : Nat) ^ 3 ∣ 2 ^ j)
        have hsize8 : l1.pad_to_align.size % 8 = 0 :=
          Nat.mod_eq_zero_of_dvd
            (dvd_trans hdvd8 (Nat.dvd_of_mod_eq_zero hpad))
        have hsize' : layout'.size =
            max l1.pad_to_align.size ll_size_of_ListNode := by
          rw [← h2]
        refine ⟨⟨j, hj3, hj64, halign⟩, ?_, ?_⟩
        · rw [hsize']
          rcases max_choice l1.pad_to_align.size ll_size_of_ListNode with
            hmc | hmc <;> rw [hmc]
          · exact hsize8
          · rfl
        · rw [hsize']
          exact Nat.le_max_right _ _
      · exact Option.noConfusion h
    · exact Option.noConfusion hat

/-- C9: on a successful linked-list allocation whose chosen region starts
strictly below the aligned allocation start, the call succeeds and every
region of the resulting free list is either an untouched old region or the
re-added tail starting at the allocation end; in particular the call
inserts no region covering a front-padding byte, which is therefore leaked. -/
theorem ll_alloc_front_padding (regions : List Region)
    (layout layout' : Layout) (region : Region) (alloc_start : Nat)
    (rest : List Region)
    (h1 : size_align layout = some layout')
    (h2 : find_region regions layout' = some (region, alloc_start, rest))
    (h3 : region.start < alloc_start) :
    ∃ s', ll_alloc regions layout = some (some alloc_start, s') ∧
      (∀ r' ∈ s', r' ∈ rest ∨ alloc_start + layout'.size ≤ r'.start) ∧
      (∀ r' ∈ s', r' ∉ rest →
        ∀ p, p < alloc_start → ¬(r'.start ≤ p ∧ p < r'.start + r'.size)) := by
  obtain ⟨⟨k, hk3, hk64, halign⟩, hsz8, hsz16⟩ := size_align_spec layout layout' h1
  have hafr := find_region_chosen regions layout' region alloc_start rest h2
  rw [alloc_from_region] at hafr
  split at hafr
  · exact Option.noConfusion hafr
  rename_i astart0 hau
  split at hafr
  · exact Option.noConfusion hafr
  rename_i aend hca
  split at hafr
  · exact Option.noConfusion hafr
  rename_i hfit
  split at hafr
  · exact Option.noConfusion hafr
  rename_i htail
  have hastart : astart0 = alloc_start := Option.some.inj hafr
  rw [hastart] at hau hca
  have haend : aend = alloc_start + layout'.size := by
    rw [checked_add] at hca
    split at hca
    · exact (Option.some.inj hca).symm
    · exact Option.noConfusion hca
  have hmodk : alloc_start % 2 ^ k = 0 := by
    rw [halign] at hau
    exact align_up_pow2_mod region.start k alloc_start hau
  have hmod8 : alloc_start % 8 = 0 := by
    have hdvdk : (8 : Nat) ∣ 2 ^ k := (pow_dvd_pow 2 hk3 : (2 : Nat) ^ 3 ∣ 2 ^ k)
    exact Nat.mod_eq_zero_of_dvd
      (dvd_trans hdvdk (Nat.dvd_of_mod_eq_zero hmodk))
  have hend8 : aend % 8 = 0 := by
    rw [haend, Nat.add_mod, hmod8, hsz8]
  push_neg at htail
  by_cases hex : 0 < region.end_addr - aend
  · have h16 : ll_size_of_ListNode ≤ region.end_addr - aend := htail hex
    have haddok : add_free_region rest aend (region.end_addr - aend) =
        some ({ start := aend, size := region.end_addr - aend } :: rest) := by
      rw [add_free_region, if_pos ⟨(align_up_8_self aend).2 hend8, h16⟩]
    refine ⟨{ start := aend, size := region.end_addr - aend } :: rest, ?_, ?_, ?_⟩
    · simp only [ll_alloc, h1, h2, hca, if_pos hex, haddok, Option.map_some']
    · intro r' hr'
      rcases List.mem_cons.1 hr' with rfl | hmem
      · right
        exact le_of_eq haend.symm
      · exact Or.inl hmem
    · intro r' hr' hnot p hp
      rcases List.mem_cons.1 hr' with rfl | hmem
      · rintro ⟨hc1, -⟩
        have hc1' : aend ≤ p := hc1
        omega
      · exact absurd hmem hnot
  · refine ⟨rest, ?_, ?_, ?_⟩
    · simp only [ll_alloc, h1, h2, hca, if_neg hex]
    · intro r' hr'
      exact Or.inl hr'
    · intro r' hr' hnot
      exact absurd hr' hnot

/-- Concrete instance: a 16-byte request at alignment 32 carved from the
region [8, 96) starts at 32, leaking the padding [8, 32): the only re-added
region is the tail at 64. -/
theorem ll_alloc_front_padding_witness :
    ∃ s', ll_alloc [{ start := 8, size := 88 }] { size := 16, align := 32 } =
        some (some 32, s') ∧
      (∀ r' ∈ s', r' ∈ ([] : List Region) ∨ 32 + 32 ≤ r'.start) ∧
      (∀ r' ∈ s', r' ∉ ([] : List Region) →
        ∀ p, p < 32 → ¬(r'.start ≤ p ∧ p < r'.start + r'.size)) :=
  ll_alloc_front_padding [{ start := 8, size := 88 }]
    { size := 16, align := 32 } { size := 32, align := 32 }
    { start := 8, size := 88 } 32 [] (by decide) (by decide) (by decide)

